import Mathlib

/-!
Shallow embedding of the ServoEasing motion engine.

This file models the servo motion engine of `src/src/ServoEasing.hpp`
(the default build: no PCA9685 expander, no `PROVIDE_ONLY_LINEAR_MOVEMENT`,
no `DISABLE_MICROS_AS_DEGREE_PARAMETER`) and proves the stated properties
about it.

Modelling conventions:
* C integer types are modelled as `Nat` / `Int` at mathematical precision;
  C integer division (truncation toward zero) is `Int.tdiv`, and the
  unsigned divisions of the source are `Nat` division.
  `uint_fast16_t` is platform dependent (at least 16 bits), so durations
  are modelled as `Nat`.
* The global registry (`ServoEasingArray`, `ServoEasingNextPositionArray`,
  `sServoArrayMaxIndex`, `sInterruptsAreActive`) is a `ServoEasingRegistry`
  value; a `NULL` slot is `none`.
* `millis()` is passed explicitly as a `now : Nat` argument.
* The floating point easing curves are not modelled numerically: in
  `ServoEasing.update` the non-linear branch obtains its new position from
  an explicit oracle argument, which is sound for every property proved
  here because that branch only ever feeds its value through
  `writeMicrosecondsOrUnits` and never touches any other field.
* The target-position-reached handler is a function argument
  `Option (ServoEasing → ServoEasing)` rather than a stored member,
  because a member of that type would make the state type recursive.
-/

/-- Sentinel `INVALID_SERVO` for a detached servo.
Modelled from the spec: the numeric value lives in the header `ServoEasing.h`,
which is not part of the sources here; only its role as the detached
sentinel (`channelIndex == INVALID`) matters, the concrete numeral is the
library default. -/
def INVALID_SERVO : Nat := 255

/-- Values below this threshold are interpreted as degrees, values at or
above it as microseconds (source comment: "treat values less than 400 as
angles in degrees, others are handled as microseconds"). -/
def THRESHOLD_VALUE_FOR_INTERPRETING_VALUE_AS_MICROSECONDS : Int := 400

/-- Constant `MILLIS_IN_ONE_SECOND`. -/
def MILLIS_IN_ONE_SECOND : Nat := 1000

/-- Modelled from the spec: the packed easing selector keeps the curve
family in the low bits and the call style in the two high bits of the
8-bit value; the masks and style codes live in the header `ServoEasing.h`,
which is not part of the sources here. -/
def CALL_STYLE_MASK : Nat := 0xC0

/-- Modelled from the spec: the direct ("in") call style code. -/
def CALL_STYLE_DIRECT : Nat := 0x00

/-- Modelled from the spec: the bounce ("out-in") call style code, the
style with both high bits set. -/
def CALL_STYLE_BOUNCING_OUT_IN : Nat := 0xC0

/-- Modelled from the spec: the linear curve is family 0 with direct
style. -/
def EASE_LINEAR : Nat := 0x00

/-- Modelled from the spec: the dummy-move curve family id (a move that
keeps the current target); the numeral lives in the header, only its
distinctness from the other selectors matters here. -/
def EASE_DUMMY_MOVE : Nat := 0x06

/-- Per-servo state: the data members of class `ServoEasing` that the
motion engine reads or writes. -/
structure ServoEasing where
  mServoIndex : Nat
  mCurrentMicrosecondsOrUnits : Int
  mStartMicrosecondsOrUnits : Int
  mEndMicrosecondsOrUnits : Int
  mDeltaMicrosecondsOrUnits : Int
  mSpeed : Nat
  mMillisForCompleteMove : Nat
  mMillisAtStartMove : Nat
  mServoMoves : Bool
  mEasingType : Nat
  mTrimMicrosecondsOrUnits : Int
  mOperateServoReverse : Bool
  mServo0DegreeMicrosecondsOrUnits : Int
  mServo180DegreeMicrosecondsOrUnits : Int
deriving Repr, DecidableEq

/-- The global state shared by all servos that the per-servo operations
touch: `ServoEasingNextPositionArray` and `sInterruptsAreActive`. -/
structure ServoEasingGlobals where
  nextPositionArray : List Int
  sInterruptsAreActive : Bool
deriving Repr, DecidableEq

/-- The full registry: `ServoEasingArray` (a `NULL` pointer slot is
`none`), `ServoEasingNextPositionArray`, `sServoArrayMaxIndex` and
`sInterruptsAreActive`. -/
structure ServoEasingRegistry where
  servoEasingArray : List (Option ServoEasing)
  nextPositionArray : List Int
  sServoArrayMaxIndex : Nat
  sInterruptsAreActive : Bool
deriving Repr, DecidableEq

/-- The globals of a registry state. -/
def ServoEasingRegistry.globals (reg : ServoEasingRegistry) : ServoEasingGlobals :=
  { nextPositionArray := reg.nextPositionArray
    sInterruptsAreActive := reg.sInterruptsAreActive }

/-- Read slot `i` of the servo array (`NULL`, i.e. `none`, when the slot is
empty or out of range). -/
def servoAt (arr : List (Option ServoEasing)) (i : Nat) : Option ServoEasing :=
  (arr[i]?).getD none

/-- Modelled from the spec: the Arduino core `map()` used by the source
for the `[0,180] → [low,high]` linear interpolation; integer arithmetic
with C truncating division, no rounding (source comment: "Do not use map
function, because it does no rounding"). -/
def arduinoMap (x inMin inMax outMin outMax : Int) : Int :=
  ((x - inMin) * (outMax - outMin)).tdiv (inMax - inMin) + outMin

namespace ServoEasing

/-- Source function `ServoEasing::DegreeToMicrosecondsOrUnits` (default build): values
below the 400 threshold are degrees and are mapped through
`[0,180] → [mServo0Degree…, mServo180Degree…]`; other values are already
microseconds and are passed through. -/
def DegreeToMicrosecondsOrUnits (s : ServoEasing) (aDegreeOrMicroseconds : Int) : Int :=
  if aDegreeOrMicroseconds < THRESHOLD_VALUE_FOR_INTERPRETING_VALUE_AS_MICROSECONDS then
    arduinoMap aDegreeOrMicroseconds 0 180 s.mServo0DegreeMicrosecondsOrUnits
      s.mServo180DegreeMicrosecondsOrUnits
  else
    aDegreeOrMicroseconds

/-- Source function `ServoEasing::MicrosecondsOrUnitsToDegree` (default build):
`((units - mServo0Degree…) * 180 + 928) / (mServo180Degree… - mServo0Degree…)`
with C truncating division; 928 is the source's hardcoded half-degree
bias for the default 1856-microsecond span. -/
def MicrosecondsOrUnitsToDegree (s : ServoEasing) (aMicrosecondsOrUnits : Int) : Int :=
  ((aMicrosecondsOrUnits - s.mServo0DegreeMicrosecondsOrUnits) * 180 + 928).tdiv
    (s.mServo180DegreeMicrosecondsOrUnits - s.mServo0DegreeMicrosecondsOrUnits)

/-- Source function `ServoEasing::MicrosecondsToDegree` (default build: no PCA9685, so it
delegates to `MicrosecondsOrUnitsToDegree`). -/
def MicrosecondsToDegree (s : ServoEasing) (aMicroseconds : Int) : Int :=
  MicrosecondsOrUnitsToDegree s aMicroseconds

/-- Source function `ServoEasing::DegreeToMicrosecondsOrUnitsWithTrimAndReverse`. -/
def DegreeToMicrosecondsOrUnitsWithTrimAndReverse (s : ServoEasing) (aDegree : Int) : Int :=
  let tResultValue := arduinoMap aDegree 0 180 s.mServo0DegreeMicrosecondsOrUnits
      s.mServo180DegreeMicrosecondsOrUnits
  let tResultValue := tResultValue + s.mTrimMicrosecondsOrUnits
  if s.mOperateServoReverse then
    s.mServo180DegreeMicrosecondsOrUnits - (tResultValue - s.mServo0DegreeMicrosecondsOrUnits)
  else
    tResultValue

/-- Source function `ServoEasing::writeMicrosecondsOrUnits`: stores the raw value in
`mCurrentMicrosecondsOrUnits`, then applies trim and (optionally) the
reverse mirroring and sends the result to the underlying servo library;
the second component is the pulse value sent (`none` when detached). -/
def writeMicrosecondsOrUnits (s : ServoEasing) (aMicrosecondsOrUnits : Int) :
    ServoEasing × Option Int :=
  if s.mServoIndex = INVALID_SERVO then
    (s, none)
  else
    let s' := { s with mCurrentMicrosecondsOrUnits := aMicrosecondsOrUnits }
    let withTrim := aMicrosecondsOrUnits + s.mTrimMicrosecondsOrUnits
    let pulse :=
      if s.mOperateServoReverse then
        s.mServo180DegreeMicrosecondsOrUnits - (withTrim - s.mServo0DegreeMicrosecondsOrUnits)
      else
        withTrim
    (s', some pulse)

/-- Source function `ServoEasing::write`: on a detached servo a pure no-op; otherwise
stores the raw argument in `ServoEasingNextPositionArray[mServoIndex]`
and then writes the converted value through `writeMicrosecondsOrUnits`. -/
def write (s : ServoEasing) (g : ServoEasingGlobals) (aDegreeOrMicrosecond : Int) :
    ServoEasing × ServoEasingGlobals :=
  if s.mServoIndex = INVALID_SERVO then
    (s, g)
  else
    let g' := { g with
      nextPositionArray := g.nextPositionArray.set s.mServoIndex aDegreeOrMicrosecond }
    ((writeMicrosecondsOrUnits s (DegreeToMicrosecondsOrUnits s aDegreeOrMicrosecond)).1, g')

/-- Source function `ServoEasing::startEaseToD`: sets up all values for a smooth move.
On a detached servo it returns `true` immediately without any change.
Otherwise (unless the easing type is the dummy move) it stages the raw
target in `ServoEasingNextPositionArray` and stores the converted target
in `mEndMicrosecondsOrUnits`; then it fixes delta, duration and start
position, resets the end position to the start position for the bounce
(out-in) call style, records `now` as the move start time, sets
`mServoMoves` and enables the update interrupt when requested.
The boolean result is `!mServoMoves` sampled before the start (source:
"return false if servo was still moving"). -/
def startEaseToD (s : ServoEasing) (g : ServoEasingGlobals) (aDegreeOrMicrosecond : Int)
    (aMillisForMove : Nat) (aStartUpdateByInterrupt : Bool) (now : Nat) :
    ServoEasing × ServoEasingGlobals × Bool :=
  if s.mServoIndex = INVALID_SERVO then
    (s, g, true)
  else
    let g' :=
      if s.mEasingType ≠ EASE_DUMMY_MOVE then
        { g with nextPositionArray := g.nextPositionArray.set s.mServoIndex aDegreeOrMicrosecond }
      else g
    let tEnd :=
      if s.mEasingType ≠ EASE_DUMMY_MOVE then DegreeToMicrosecondsOrUnits s aDegreeOrMicrosecond
      else s.mEndMicrosecondsOrUnits
    let tCurrentMicrosecondsOrUnits := s.mCurrentMicrosecondsOrUnits
    let tEnd' :=
      if s.mEasingType &&& CALL_STYLE_MASK = CALL_STYLE_BOUNCING_OUT_IN then
        tCurrentMicrosecondsOrUnits
      else tEnd
    let tReturnValue := !s.mServoMoves
    let s' := { s with
      mEndMicrosecondsOrUnits := tEnd'
      mDeltaMicrosecondsOrUnits := tEnd - tCurrentMicrosecondsOrUnits
      mMillisForCompleteMove := aMillisForMove
      mStartMicrosecondsOrUnits := tCurrentMicrosecondsOrUnits
      mMillisAtStartMove := now
      mServoMoves := true }
    let g'' :=
      if aStartUpdateByInterrupt && !g'.sInterruptsAreActive then
        { g' with sInterruptsAreActive := true }
      else g'
    (s', g'', tReturnValue)

/-- Source function `ServoEasing::startEaseTo(degreeOrMicrosecond, degreesPerSecond,
startUpdateByInterrupt)`: replaces a zero speed by 1, converts the target
and the current position to degrees, derives the move duration as
`abs(targetDegree - currentDegree) * 1000 / degreesPerSecond`, doubles it
for the bounce (out-in) call style, and delegates to `startEaseToD`. -/
def startEaseTo (s : ServoEasing) (g : ServoEasingGlobals) (aDegreeOrMicrosecond : Int)
    (aDegreesPerSecond : Nat) (aStartUpdateByInterrupt : Bool) (now : Nat) :
    ServoEasing × ServoEasingGlobals × Bool :=
  let aDegreesPerSecond := if aDegreesPerSecond = 0 then 1 else aDegreesPerSecond
  let tTargetDegree :=
    if THRESHOLD_VALUE_FOR_INTERPRETING_VALUE_AS_MICROSECONDS ≤ aDegreeOrMicrosecond then
      MicrosecondsToDegree s aDegreeOrMicrosecond
    else aDegreeOrMicrosecond
  let tCurrentDegree := MicrosecondsOrUnitsToDegree s s.mCurrentMicrosecondsOrUnits
  let tMillisForCompleteMove :=
    (tTargetDegree - tCurrentDegree).natAbs * MILLIS_IN_ONE_SECOND / aDegreesPerSecond
  let tMillisForCompleteMove :=
    if s.mEasingType &&& CALL_STYLE_MASK = CALL_STYLE_BOUNCING_OUT_IN then
      tMillisForCompleteMove * 2
    else tMillisForCompleteMove
  startEaseToD s g aDegreeOrMicrosecond tMillisForCompleteMove aStartUpdateByInterrupt now

/-- Source function `ServoEasing::setEaseTo(degreeOrMicrosecond, degreesPerSecond)` =
`startEaseTo(…, DO_NOT_START_UPDATE_BY_INTERRUPT)`. -/
def setEaseTo (s : ServoEasing) (g : ServoEasingGlobals) (aDegreeOrMicrosecond : Int)
    (aDegreesPerSecond : Nat) (now : Nat) : ServoEasing × ServoEasingGlobals × Bool :=
  startEaseTo s g aDegreeOrMicrosecond aDegreesPerSecond false now

/-- Source function `ServoEasing::update` (default build). `handler` is the registered
`TargetPositionReachedHandler` (`none` for `NULL`); `easeOracle` supplies
the new position computed by the floating point non-linear branch, which
is otherwise not modelled — that branch only feeds its value through
`writeMicrosecondsOrUnits`.
Returns the new state and the C++ boolean result (`true` when stopped). -/
def update (handler : Option (ServoEasing → ServoEasing))
    (easeOracle : ServoEasing → Nat → Int) (s : ServoEasing) (now : Nat) :
    ServoEasing × Bool :=
  if s.mServoMoves = false then
    (s, true)
  else
    let tMillisSinceStart := now - s.mMillisAtStartMove
    if s.mMillisForCompleteMove ≤ tMillisSinceStart then
      -- end of time reached: write end position, stop, fire the handler
      let s1 := (writeMicrosecondsOrUnits s s.mEndMicrosecondsOrUnits).1
      let s2 := { s1 with mServoMoves := false }
      let s3 := match handler with
        | none => s2
        | some f => f s2
      (s3, !s3.mServoMoves)
    else
      let tNewMicrosecondsOrUnits :=
        if s.mEasingType = EASE_LINEAR then
          s.mStartMicrosecondsOrUnits +
            (s.mDeltaMicrosecondsOrUnits * (tMillisSinceStart : Int)).tdiv
              (s.mMillisForCompleteMove : Int)
        else
          easeOracle s tMillisSinceStart
      if tNewMicrosecondsOrUnits ≠ s.mCurrentMicrosecondsOrUnits then
        ((writeMicrosecondsOrUnits s tNewMicrosecondsOrUnits).1, false)
      else
        (s, false)

end ServoEasing

/-- Apply `f i a` to every list element, `i` being its index (offset by
the first argument); used to model the registry loops that rewrite each
slot independently. -/
def mapWithIndex (f : Nat → α → α) : Nat → List α → List α
  | _, [] => []
  | i, a :: as => f i a :: mapWithIndex f (i + 1) as

/-- Source function `isOneServoMoving()`: scans slots `0..=sServoArrayMaxIndex` for an
attached servo with `mServoMoves` set. -/
def isOneServoMoving (reg : ServoEasingRegistry) : Bool :=
  (List.range (reg.sServoArrayMaxIndex + 1)).any fun i =>
    match servoAt reg.servoEasingArray i with
    | some s => s.mServoMoves
    | none => false

/-- Source function `ServoEasing::stop()` for the servo in slot `j`: clears `mServoMoves`
and, when no servo in the registry is left moving, calls
`disableServoEasingInterrupt()`, which clears `sInterruptsAreActive`. -/
def ServoEasing.stop (reg : ServoEasingRegistry) (j : Nat) : ServoEasingRegistry :=
  let reg1 :=
    match servoAt reg.servoEasingArray j with
    | some s =>
        { reg with servoEasingArray :=
            reg.servoEasingArray.set j (some { s with mServoMoves := false }) }
    | none => reg
  if isOneServoMoving reg1 then reg1
  else { reg1 with sInterruptsAreActive := false }

/-- The per-slot effect of the `stopAllServos()` loop. -/
def stopServoAt (maxIdx : Nat) (i : Nat) (os : Option ServoEasing) : Option ServoEasing :=
  if i ≤ maxIdx then
    match os with
    | some s => some { s with mServoMoves := false }
    | none => none
  else os

/-- Source function `stopAllServos()`: clears `mServoMoves` on every attached servo in
slots `0..=sServoArrayMaxIndex` and nothing else.  The line
`void disableServoEasingInterrupt();` in its body is a function
declaration, not a call, so `sInterruptsAreActive` is untouched. -/
def stopAllServos (reg : ServoEasingRegistry) : ServoEasingRegistry :=
  { reg with servoEasingArray :=
      mapWithIndex (stopServoAt reg.sServoArrayMaxIndex) 0 reg.servoEasingArray }

/-- One step of the first loop of `synchronizeAllServosAndStartInterrupt`:
the accumulator is `(tMaxMillisForCompleteMove, tMillisAtStartMove)`, and
a moving attached servo overwrites the reference start time and raises the
maximum duration. -/
def syncScanStep (acc : Nat × Nat) (os : Option ServoEasing) : Nat × Nat :=
  match os with
  | some s =>
      if s.mServoMoves then
        (if acc.1 < s.mMillisForCompleteMove then s.mMillisForCompleteMove else acc.1,
         s.mMillisAtStartMove)
      else acc
  | none => acc

/-- The first loop of `synchronizeAllServosAndStartInterrupt` over an
explicit index list. -/
def syncScanList (arr : List (Option ServoEasing)) (l : List Nat) (acc : Nat × Nat) :
    Nat × Nat :=
  l.foldl (fun acc i => syncScanStep acc (servoAt arr i)) acc

/-- The per-slot effect of the second loop of
`synchronizeAllServosAndStartInterrupt`: a moving attached servo in range
receives the reference start time and the maximum duration. -/
def syncServoAt (tMillisAtStartMove tMaxMillisForCompleteMove maxIdx : Nat) (i : Nat)
    (os : Option ServoEasing) : Option ServoEasing :=
  if i ≤ maxIdx then
    match os with
    | some s =>
        if s.mServoMoves then
          some { s with
            mMillisAtStartMove := tMillisAtStartMove
            mMillisForCompleteMove := tMaxMillisForCompleteMove }
        else some s
    | none => none
  else os

/-- Source function `synchronizeAllServosAndStartInterrupt`: find the maximum duration and
one reference start time over all moving servos in slots
`0..=sServoArrayMaxIndex`, write both back into every moving servo, and
optionally enable the update interrupt. -/
def synchronizeAllServosAndStartInterrupt (aStartUpdateByInterrupt : Bool)
    (reg : ServoEasingRegistry) : ServoEasingRegistry :=
  let scan := syncScanList reg.servoEasingArray
      (List.range (reg.sServoArrayMaxIndex + 1)) (0, 0)
  { reg with
    servoEasingArray :=
      mapWithIndex (syncServoAt scan.2 scan.1 reg.sServoArrayMaxIndex) 0 reg.servoEasingArray
    sInterruptsAreActive :=
      if aStartUpdateByInterrupt then true else reg.sInterruptsAreActive }

/-- Source function `ServoEasing::write` lifted to the registry, for the servo in slot
`i`. -/
def registryWrite (reg : ServoEasingRegistry) (i : Nat) (v : Int) : ServoEasingRegistry :=
  match servoAt reg.servoEasingArray i with
  | some s =>
      let r := ServoEasing.write s reg.globals v
      { reg with
        servoEasingArray := reg.servoEasingArray.set i (some r.1)
        nextPositionArray := r.2.nextPositionArray
        sInterruptsAreActive := r.2.sInterruptsAreActive }
  | none => reg

/-- One step of the `setEaseToForAllServos()` loop: the servo in slot `i`
(when attached) is given `setEaseTo(ServoEasingNextPositionArray[i],
mSpeed)`, and its boolean result is or-ed into the accumulator. -/
def setEaseToForAllServosStep (now : Nat) (acc : ServoEasingRegistry × Bool) (i : Nat) :
    ServoEasingRegistry × Bool :=
  match servoAt acc.1.servoEasingArray i with
  | some s =>
      let r := ServoEasing.setEaseTo s acc.1.globals (acc.1.nextPositionArray.getD i 0)
          s.mSpeed now
      ({ acc.1 with
          servoEasingArray := acc.1.servoEasingArray.set i (some r.1)
          nextPositionArray := r.2.1.nextPositionArray
          sInterruptsAreActive := r.2.1.sInterruptsAreActive },
       r.2.2 || acc.2)
  | none => acc

/-- Source function `setEaseToForAllServos()`: for every attached servo in slots
`0..=sServoArrayMaxIndex`, sets up an ease to the position staged in
`ServoEasingNextPositionArray`, at the servo's own `mSpeed`, without
starting the interrupt. -/
def setEaseToForAllServos (reg : ServoEasingRegistry) (now : Nat) :
    ServoEasingRegistry × Bool :=
  (List.range (reg.sServoArrayMaxIndex + 1)).foldl (setEaseToForAllServosStep now) (reg, false)

/-! ## Helper lemmas -/

theorem mapWithIndex_getElem? (f : Nat → α → α) (k : Nat) (l : List α) (i : Nat) :
    (mapWithIndex f k l)[i]? = (l[i]?).map (f (k + i)) := by
  induction l generalizing k i with
  | nil => simp [mapWithIndex]
  | cons a as ih =>
    cases i with
    | zero => simp [mapWithIndex]
    | succ n =>
      simp only [mapWithIndex, List.getElem?_cons_succ, ih (k + 1) n]
      have h : k + 1 + n = k + (n + 1) := by omega
      rw [h]

/-! ## Sample states used by the witnesses -/

/-- A servo attached at slot 0 with the library's default microsecond
calibration (544, 2400). -/
def sampleServo : ServoEasing :=
  { mServoIndex := 0
    mCurrentMicrosecondsOrUnits := 1472
    mStartMicrosecondsOrUnits := 544
    mEndMicrosecondsOrUnits := 2400
    mDeltaMicrosecondsOrUnits := 1856
    mSpeed := 60
    mMillisForCompleteMove := 1000
    mMillisAtStartMove := 0
    mServoMoves := false
    mEasingType := EASE_LINEAR
    mTrimMicrosecondsOrUnits := 0
    mOperateServoReverse := false
    mServo0DegreeMicrosecondsOrUnits := 544
    mServo180DegreeMicrosecondsOrUnits := 2400 }

/-- A detached servo. -/
def detachedServo : ServoEasing := { sampleServo with mServoIndex := INVALID_SERVO }

/-- Sample globals with two staged positions. -/
def sampleGlobals : ServoEasingGlobals :=
  { nextPositionArray := [0, 0], sInterruptsAreActive := false }

/-! ## C7 -/

/-- C7: at the pulse-write boundary (`writeMicrosecondsOrUnits`) the pulse
actually sent is `units + trim`, mirrored as
`calibrationHigh − ((units + trim) − calibrationLow)` when reverse
operation is set, while the stored current position becomes exactly the
untrimmed, unmirrored input value (and no other field changes), so trim
and reverse never affect the stored current value. -/
theorem writeMicrosecondsOrUnits_applies_trim_and_reverse_only_to_output
    (s : ServoEasing) (v : Int) (h : s.mServoIndex ≠ INVALID_SERVO) :
    (ServoEasing.writeMicrosecondsOrUnits s v).1 =
      { s with mCurrentMicrosecondsOrUnits := v } ∧
    (ServoEasing.writeMicrosecondsOrUnits s v).2 =
      some (if s.mOperateServoReverse then
          s.mServo180DegreeMicrosecondsOrUnits -
            ((v + s.mTrimMicrosecondsOrUnits) - s.mServo0DegreeMicrosecondsOrUnits)
        else
          v + s.mTrimMicrosecondsOrUnits) := by
  simp [ServoEasing.writeMicrosecondsOrUnits, h]

/-- A trimmed, reversed servo for the C7 witness. -/
def trimmedReversedServo : ServoEasing :=
  { sampleServo with mTrimMicrosecondsOrUnits := 24, mOperateServoReverse := true }

theorem writeMicrosecondsOrUnits_applies_trim_and_reverse_only_to_output_witness :
    trimmedReversedServo.mServoIndex ≠ INVALID_SERVO ∧
    ((ServoEasing.writeMicrosecondsOrUnits trimmedReversedServo 1000).1 =
        { trimmedReversedServo with mCurrentMicrosecondsOrUnits := 1000 } ∧
      (ServoEasing.writeMicrosecondsOrUnits trimmedReversedServo 1000).2 =
        some (if trimmedReversedServo.mOperateServoReverse then
            trimmedReversedServo.mServo180DegreeMicrosecondsOrUnits -
              ((1000 + trimmedReversedServo.mTrimMicrosecondsOrUnits) -
                trimmedReversedServo.mServo0DegreeMicrosecondsOrUnits)
          else
            1000 + trimmedReversedServo.mTrimMicrosecondsOrUnits)) :=
  ⟨by decide,
   writeMicrosecondsOrUnits_applies_trim_and_reverse_only_to_output
     trimmedReversedServo 1000 (by decide)⟩

/-! ## C8 -/

/-- C8: `startEaseTo` with a degrees-per-second speed of 0 behaves exactly
as with speed 1 — the zero is replaced before the duration division, no
error is reported, and the move proceeds identically. -/
theorem startEaseTo_zero_speed_equals_speed_one (s : ServoEasing)
    (g : ServoEasingGlobals) (d : Int) (flag : Bool) (now : Nat) :
    ServoEasing.startEaseTo s g d 0 flag now =
      ServoEasing.startEaseTo s g d 1 flag now := by
  simp [ServoEasing.startEaseTo]

/-! ## C5 -/

/-- C5 counterexample: the claim says a detached-servo failure is reported
to the caller through the boolean return value, but `startEaseToD` on a
detached servo returns `true` — precisely the value it also returns for a
successful start on an attached, idle servo — so the caller cannot tell
the failure from a success (`write` in the source returns `void` and
reports nothing at all). -/
theorem startEaseToD_detached_return_matches_success :
    detachedServo.mServoIndex = INVALID_SERVO ∧
    sampleServo.mServoIndex ≠ INVALID_SERVO ∧
    sampleServo.mServoMoves = false ∧
    (ServoEasing.startEaseToD detachedServo sampleGlobals 90 1000 false 0).2.2 =
      (ServoEasing.startEaseToD sampleServo sampleGlobals 90 1000 false 0).2.2 := by
  decide

/-- C5 (amended): every operation on a detached servo
(`mServoIndex = INVALID_SERVO`) leaves all servo state and all global
state unchanged and never crashes; however the failure is not separately
reported: `write` returns no status at all, and `startEaseToD` returns
`true`, the same value as a successful start on an idle servo. -/
theorem detached_operations_are_noops (s : ServoEasing) (g : ServoEasingGlobals)
    (v d : Int) (m : Nat) (flag : Bool) (now : Nat)
    (h : s.mServoIndex = INVALID_SERVO) :
    ServoEasing.write s g v = (s, g) ∧
    ServoEasing.startEaseToD s g d m flag now = (s, g, true) := by
  simp [ServoEasing.write, ServoEasing.startEaseToD, h]

theorem detached_operations_are_noops_witness :
    detachedServo.mServoIndex = INVALID_SERVO ∧
    (ServoEasing.write detachedServo sampleGlobals 90 = (detachedServo, sampleGlobals) ∧
      ServoEasing.startEaseToD detachedServo sampleGlobals 90 1000 false 0 =
        (detachedServo, sampleGlobals, true)) :=
  ⟨by decide,
   detached_operations_are_noops detachedServo sampleGlobals 90 90 1000 false 0 (by decide)⟩

/-! ## C6 -/

/-- C6: with the bounce (out-in) call style, `startEaseToD` stores the
start position as the end position (the servo returns to where it began)
and keeps an explicitly passed duration unchanged, while `startEaseTo`
doubles the duration it derives from speed and distance before delegating
to `startEaseToD`. -/
theorem bounce_targets_start_and_doubles_only_speed_duration (s : ServoEasing)
    (g : ServoEasingGlobals) (d : Int) (m : Nat) (flag : Bool) (now : Nat) (sp : Nat)
    (hb : s.mEasingType &&& CALL_STYLE_MASK = CALL_STYLE_BOUNCING_OUT_IN)
    (ha : s.mServoIndex ≠ INVALID_SERVO) (hsp : sp ≠ 0) :
    (ServoEasing.startEaseToD s g d m flag now).1.mEndMicrosecondsOrUnits =
      s.mCurrentMicrosecondsOrUnits ∧
    (ServoEasing.startEaseToD s g d m flag now).1.mMillisForCompleteMove = m ∧
    (ServoEasing.startEaseTo s g d sp flag now).1.mMillisForCompleteMove =
      ((if THRESHOLD_VALUE_FOR_INTERPRETING_VALUE_AS_MICROSECONDS ≤ d then
            ServoEasing.MicrosecondsToDegree s d
          else d) -
        ServoEasing.MicrosecondsOrUnitsToDegree s s.mCurrentMicrosecondsOrUnits).natAbs *
        MILLIS_IN_ONE_SECOND / sp * 2 := by
  refine ⟨?_, ?_, ?_⟩
  · simp [ServoEasing.startEaseToD, ha, hb]
  · simp [ServoEasing.startEaseToD, ha]
  · simp [ServoEasing.startEaseTo, ServoEasing.startEaseToD, ha, hb, hsp]

/-- A servo with the bounce (out-in) call style selected (linear family,
bounce style bits). -/
def bounceServo : ServoEasing := { sampleServo with mEasingType := 0xC0 }

theorem bounce_targets_start_and_doubles_only_speed_duration_witness :
    (bounceServo.mEasingType &&& CALL_STYLE_MASK = CALL_STYLE_BOUNCING_OUT_IN ∧
      bounceServo.mServoIndex ≠ INVALID_SERVO ∧ (60 : Nat) ≠ 0) ∧
    ((ServoEasing.startEaseToD bounceServo sampleGlobals 0 1000 false 0).1.mEndMicrosecondsOrUnits =
        bounceServo.mCurrentMicrosecondsOrUnits ∧
      (ServoEasing.startEaseToD bounceServo sampleGlobals 0 1000 false 0).1.mMillisForCompleteMove =
        1000 ∧
      (ServoEasing.startEaseTo bounceServo sampleGlobals 0 60 false 0).1.mMillisForCompleteMove =
        ((if THRESHOLD_VALUE_FOR_INTERPRETING_VALUE_AS_MICROSECONDS ≤ (0 : Int) then
              ServoEasing.MicrosecondsToDegree bounceServo 0
            else (0 : Int)) -
          ServoEasing.MicrosecondsOrUnitsToDegree bounceServo
            bounceServo.mCurrentMicrosecondsOrUnits).natAbs *
          MILLIS_IN_ONE_SECOND / 60 * 2) :=
  ⟨⟨by decide, by decide, by decide⟩,
   bounce_targets_start_and_doubles_only_speed_duration bounceServo sampleGlobals 0 1000
     false 0 60 (by decide) (by decide) (by decide)⟩

/-! ## C3 -/

/-- A servo calibrated with the degenerate span (0, 1); `high > low`
still holds. -/
def narrowCalServo : ServoEasing :=
  { sampleServo with
    mServo0DegreeMicrosecondsOrUnits := 0
    mServo180DegreeMicrosecondsOrUnits := 1 }

/-- C3 counterexample: the claim quantifies over every calibration pair
with `high > low`, but the rounding bias 928 of
`MicrosecondsOrUnitsToDegree` is hardcoded for the default 1856-unit span:
with calibration (0, 1) the round trip of 0 degrees yields 928, not 0, so
the round trip is neither within a half-step of the input nor exact at
`d = 0`. -/
theorem roundTrip_narrow_calibration_inexact :
    narrowCalServo.mServo0DegreeMicrosecondsOrUnits <
      narrowCalServo.mServo180DegreeMicrosecondsOrUnits ∧
    ServoEasing.MicrosecondsOrUnitsToDegree narrowCalServo
      (ServoEasing.DegreeToMicrosecondsOrUnits narrowCalServo 0) = 928 := by
  decide

/-- C3 (amended): for every calibration pair whose span
`high − low` is at least 929 (this covers every realistic microsecond
calibration, e.g. the default (544, 2400)), converting any degree
`d ∈ [0,180]` to units and back is exact — in particular exactly 0 at
`d = 0` and exactly 180 at `d = 180`.  For narrower spans the hardcoded
bias 928 of `MicrosecondsOrUnitsToDegree` breaks the round trip. -/
theorem roundTrip_exact_for_wide_calibration (s : ServoEasing) (d : Int)
    (h0 : 0 ≤ d) (h180 : d ≤ 180)
    (hcal : 929 ≤ s.mServo180DegreeMicrosecondsOrUnits -
      s.mServo0DegreeMicrosecondsOrUnits) :
    ServoEasing.MicrosecondsOrUnitsToDegree s
      (ServoEasing.DegreeToMicrosecondsOrUnits s d) = d := by
  have hd400 : d < THRESHOLD_VALUE_FOR_INTERPRETING_VALUE_AS_MICROSECONDS := by
    simp only [THRESHOLD_VALUE_FOR_INTERPRETING_VALUE_AS_MICROSECONDS]; omega
  rw [ServoEasing.DegreeToMicrosecondsOrUnits, if_pos hd400]
  simp only [ServoEasing.MicrosecondsOrUnitsToDegree, arduinoMap, sub_zero,
    add_sub_cancel_right]
  rcases s with ⟨i, cu, st, en, de, sp, mf, ms, mv, et, tr, rv, L, H⟩
  simp only at hcal ⊢
  have hn : (0 : Int) ≤ d * (H - L) := mul_nonneg h0 (by omega)
  rw [Int.tdiv_eq_ediv hn (by omega)]
  have key : d * (H - L) / 180 * 180 + 928 =
      (928 - d * (H - L) % 180) + d * (H - L) := by
    have := Int.ediv_add_emod (d * (H - L)) 180
    omega
  rw [key]
  have hmod0 : (0 : Int) ≤ d * (H - L) % 180 := Int.emod_nonneg _ (by omega)
  have hmod1 : d * (H - L) % 180 < 180 := Int.emod_lt_of_pos _ (by omega)
  rw [Int.tdiv_eq_ediv (by omega) (by omega)]
  rw [Int.add_mul_ediv_right _ _ (show H - L ≠ 0 by omega)]
  rw [Int.ediv_eq_zero_of_lt (by omega) (by omega)]
  omega

theorem roundTrip_exact_for_wide_calibration_witness :
    ((0 : Int) ≤ 180 ∧ (180 : Int) ≤ 180 ∧
      (929 : Int) ≤ sampleServo.mServo180DegreeMicrosecondsOrUnits -
        sampleServo.mServo0DegreeMicrosecondsOrUnits) ∧
    ServoEasing.MicrosecondsOrUnitsToDegree sampleServo
      (ServoEasing.DegreeToMicrosecondsOrUnits sampleServo 180) = 180 :=
  ⟨⟨by decide, by decide, by decide⟩,
   roundTrip_exact_for_wide_calibration sampleServo 180 (by decide) (by decide) (by decide)⟩

/-! ## Update runs: helpers for C2 and C4 -/

/-- Run `update()` once per element of `ts` (each element being the
`millis()` value at that tick), threading the state. -/
def runUpdates (handler : Option (ServoEasing → ServoEasing))
    (easeOracle : ServoEasing → Nat → Int) (ts : List Nat) (s : ServoEasing) : ServoEasing :=
  ts.foldl (fun s t => (ServoEasing.update handler easeOracle s t).1) s

/-- The per-tick handler-invocation record of a run: `true` at a tick iff
`update()` calls the `TargetPositionReachedHandler` there (the servo is
moving, the elapsed time has reached the duration, and a handler is
registered). -/
def handlerInvocationFlags (handler : Option (ServoEasing → ServoEasing))
    (easeOracle : ServoEasing → Nat → Int) : List Nat → ServoEasing → List Bool
  | [], _ => []
  | t :: ts, s =>
      (handler.isSome && s.mServoMoves &&
        decide (s.mMillisForCompleteMove ≤ t - s.mMillisAtStartMove)) ::
      handlerInvocationFlags handler easeOracle ts (ServoEasing.update handler easeOracle s t).1

theorem ServoEasing.eta_current (s : ServoEasing) :
    { s with mCurrentMicrosecondsOrUnits := s.mCurrentMicrosecondsOrUnits } = s := by
  cases s; rfl

/-- A tick before the end of the move only (at most) rewrites the current
position: every other field survives, the servo keeps moving, and the
C++ return value is `false`. -/
theorem update_intermediate (handler : Option (ServoEasing → ServoEasing))
    (easeOracle : ServoEasing → Nat → Int) (s : ServoEasing) (t : Nat)
    (hmov : s.mServoMoves = true)
    (hlt : t - s.mMillisAtStartMove < s.mMillisForCompleteMove) :
    ∃ c : Int, ServoEasing.update handler easeOracle s t =
      ({ s with mCurrentMicrosecondsOrUnits := c }, false) := by
  unfold ServoEasing.update ServoEasing.writeMicrosecondsOrUnits
  rw [if_neg (by simp [hmov] : ¬s.mServoMoves = false)]
  rw [if_neg (by omega : ¬s.mMillisForCompleteMove ≤ t - s.mMillisAtStartMove)]
  dsimp only
  repeat' split
  all_goals exact ⟨_, rfl⟩

/-- Any sequence of ticks that all fall before the end of the move leaves
every field but the current position unchanged. -/
theorem runUpdates_intermediate (handler : Option (ServoEasing → ServoEasing))
    (easeOracle : ServoEasing → Nat → Int) (ts : List Nat) (s : ServoEasing)
    (hmov : s.mServoMoves = true)
    (hts : ∀ t ∈ ts, t - s.mMillisAtStartMove < s.mMillisForCompleteMove) :
    ∃ c : Int, runUpdates handler easeOracle ts s =
      { s with mCurrentMicrosecondsOrUnits := c } := by
  induction ts generalizing s with
  | nil => exact ⟨s.mCurrentMicrosecondsOrUnits, by rw [ServoEasing.eta_current]; rfl⟩
  | cons t ts ih =>
    obtain ⟨c, hc⟩ := update_intermediate handler easeOracle s t hmov
      (hts t (List.mem_cons_self t ts))
    have hrun : runUpdates handler easeOracle (t :: ts) s =
        runUpdates handler easeOracle ts { s with mCurrentMicrosecondsOrUnits := c } := by
      simp only [runUpdates, List.foldl_cons, hc]
    obtain ⟨c', hc'⟩ := ih { s with mCurrentMicrosecondsOrUnits := c }
      (by simp [hmov]) (fun u hu => hts u (List.mem_cons_of_mem t hu))
    exact ⟨c', by rw [hrun, hc']⟩

/-- A tick at or after the end of the move, with no registered handler,
writes the stored end position, clears the moving flag and returns
`true`. -/
theorem update_terminal_no_handler (easeOracle : ServoEasing → Nat → Int)
    (s : ServoEasing) (now : Nat) (hmov : s.mServoMoves = true)
    (hatt : s.mServoIndex ≠ INVALID_SERVO)
    (hge : s.mMillisForCompleteMove ≤ now - s.mMillisAtStartMove) :
    ServoEasing.update none easeOracle s now =
      ({ s with
          mCurrentMicrosecondsOrUnits := s.mEndMicrosecondsOrUnits
          mServoMoves := false }, true) := by
  unfold ServoEasing.update ServoEasing.writeMicrosecondsOrUnits
  rw [if_neg (by simp [hmov] : ¬s.mServoMoves = false)]
  rw [if_pos hge, if_neg hatt]
  rfl

/-- A tick at or after the end of the move with a registered handler: the
handler is applied to the stopped state, and the C++ return value is the
negated post-handler moving flag. -/
theorem update_terminal_with_handler (f : ServoEasing → ServoEasing)
    (easeOracle : ServoEasing → Nat → Int) (s : ServoEasing) (now : Nat)
    (hmov : s.mServoMoves = true)
    (hge : s.mMillisForCompleteMove ≤ now - s.mMillisAtStartMove) :
    ∃ s2 : ServoEasing, s2.mServoMoves = false ∧
      ServoEasing.update (some f) easeOracle s now = (f s2, !(f s2).mServoMoves) := by
  unfold ServoEasing.update
  rw [if_neg (by simp [hmov] : ¬s.mServoMoves = false)]
  rw [if_pos hge]
  exact ⟨_, rfl, rfl⟩

/-! ## C2 -/

/-- C2: for a moving servo, after any number of intermediate ticks (all
before the end of the move, with any easing curve), the tick whose
elapsed time reaches or exceeds `mMillisForCompleteMove` stores exactly
`mEndMicrosecondsOrUnits` as the position, clears the moving flag and
returns the stopped status `true` (with no registered handler); for any
registered handler the returned boolean is the post-handler stopped
status. -/
theorem update_after_duration_writes_target
    (handler : Option (ServoEasing → ServoEasing)) (easeOracle : ServoEasing → Nat → Int)
    (s : ServoEasing) (ts : List Nat) (now : Nat)
    (hmov : s.mServoMoves = true) (hatt : s.mServoIndex ≠ INVALID_SERVO)
    (hts : ∀ t ∈ ts, t - s.mMillisAtStartMove < s.mMillisForCompleteMove)
    (hnow : s.mMillisForCompleteMove ≤ now - s.mMillisAtStartMove) :
    (handler = none →
      ServoEasing.update handler easeOracle (runUpdates handler easeOracle ts s) now =
        ({ s with
            mCurrentMicrosecondsOrUnits := s.mEndMicrosecondsOrUnits
            mServoMoves := false }, true)) ∧
    (ServoEasing.update handler easeOracle (runUpdates handler easeOracle ts s) now).2 =
      !(ServoEasing.update handler easeOracle
          (runUpdates handler easeOracle ts s) now).1.mServoMoves := by
  obtain ⟨c, hc⟩ := runUpdates_intermediate handler easeOracle ts s hmov hts
  constructor
  · intro hnone
    subst hnone
    rw [hc, update_terminal_no_handler easeOracle _ now (by simp [hmov])
      (by simpa using hatt) (by simpa using hnow)]
  · rw [hc]
    cases handler with
    | none =>
      rw [update_terminal_no_handler easeOracle _ now (by simp [hmov])
        (by simpa using hatt) (by simpa using hnow)]
      rfl
    | some f =>
      obtain ⟨s2, hs2, heq⟩ := update_terminal_with_handler f easeOracle
        { s with mCurrentMicrosecondsOrUnits := c } now (by simp [hmov])
        (by simpa using hnow)
      rw [heq]

/-- A servo in the middle of a move from 544 to 2400 over 1000 ms. -/
def movingServo : ServoEasing :=
  { sampleServo with mServoMoves := true, mCurrentMicrosecondsOrUnits := 544 }

/-- A trivial stand-in for the unmodelled floating point easing path. -/
def zeroOracle : ServoEasing → Nat → Int := fun _ _ => 0

theorem update_after_duration_writes_target_witness :
    (movingServo.mServoMoves = true ∧ movingServo.mServoIndex ≠ INVALID_SERVO ∧
      (∀ t ∈ [100, 500], t - movingServo.mMillisAtStartMove <
        movingServo.mMillisForCompleteMove) ∧
      movingServo.mMillisForCompleteMove ≤ 1200 - movingServo.mMillisAtStartMove) ∧
    (((none : Option (ServoEasing → ServoEasing)) = none →
      ServoEasing.update none zeroOracle (runUpdates none zeroOracle [100, 500] movingServo)
          1200 =
        ({ movingServo with
            mCurrentMicrosecondsOrUnits := movingServo.mEndMicrosecondsOrUnits
            mServoMoves := false }, true)) ∧
      (ServoEasing.update none zeroOracle (runUpdates none zeroOracle [100, 500] movingServo)
          1200).2 =
        !(ServoEasing.update none zeroOracle
            (runUpdates none zeroOracle [100, 500] movingServo) 1200).1.mServoMoves) :=
  ⟨⟨rfl, by decide, by decide, by decide⟩,
   update_after_duration_writes_target none zeroOracle movingServo [100, 500] 1200 rfl
     (by decide) (by decide) (by decide)⟩

/-! ## C4 -/

/-- A stopped servo never fires the handler, no matter how many further
ticks run. -/
theorem handlerInvocationFlags_not_moving (handler : Option (ServoEasing → ServoEasing))
    (easeOracle : ServoEasing → Nat → Int) (ts : List Nat) (s : ServoEasing)
    (h : s.mServoMoves = false) :
    handlerInvocationFlags handler easeOracle ts s = List.replicate ts.length false := by
  induction ts generalizing s with
  | nil => rfl
  | cons t ts ih =>
    have hupd : ServoEasing.update handler easeOracle s t = (s, true) := by
      unfold ServoEasing.update
      rw [if_pos h]
    simp [handlerInvocationFlags, h, hupd, ih s h, List.replicate_succ]

/-- C4: with a registered handler that does not restart the move, a run
of ticks consisting of any ticks strictly before the end of the move,
then one tick at or past the end, then any further ticks, fires the
handler exactly at that first tick reaching the duration — never at an
earlier tick and never at a later one (exactly once per completed
move). -/
theorem callback_invoked_exactly_once (f : ServoEasing → ServoEasing)
    (easeOracle : ServoEasing → Nat → Int) (s : ServoEasing) (ts1 : List Nat) (t : Nat)
    (ts2 : List Nat)
    (hf : ∀ u, (f u).mServoMoves = false)
    (hmov : s.mServoMoves = true)
    (h1 : ∀ u ∈ ts1, u - s.mMillisAtStartMove < s.mMillisForCompleteMove)
    (h2 : s.mMillisForCompleteMove ≤ t - s.mMillisAtStartMove) :
    handlerInvocationFlags (some f) easeOracle (ts1 ++ t :: ts2) s =
      List.replicate ts1.length false ++ true :: List.replicate ts2.length false := by
  induction ts1 generalizing s with
  | nil =>
    simp only [List.nil_append, List.length_nil, List.replicate_zero]
    obtain ⟨s2, hs2, heq⟩ := update_terminal_with_handler f easeOracle s t hmov h2
    have hfst : (ServoEasing.update (some f) easeOracle s t).1 = f s2 := by rw [heq]
    simp only [handlerInvocationFlags, hfst,
      handlerInvocationFlags_not_moving (some f) easeOracle ts2 (f s2) (hf s2)]
    simp [hmov, h2]
  | cons u ts1 ih =>
    have hu := h1 u (List.mem_cons_self u ts1)
    obtain ⟨c, hc⟩ := update_intermediate (some f) easeOracle s u hmov hu
    have hfst : (ServoEasing.update (some f) easeOracle s u).1 =
        { s with mCurrentMicrosecondsOrUnits := c } := by rw [hc]
    simp only [List.cons_append, handlerInvocationFlags, hfst, List.length_cons,
      List.replicate_succ]
    refine congrArg₂ List.cons ?_ ?_
    · simp
      omega
    · exact ih { s with mCurrentMicrosecondsOrUnits := c } (by simp [hmov])
        (fun v hv => by simpa using h1 v (List.mem_cons_of_mem u hv)) (by simpa using h2)

/-- A handler that (like a typical application callback) does not restart
a move. -/
def clearMovesHandler : ServoEasing → ServoEasing :=
  fun u => { u with mServoMoves := false }

theorem callback_invoked_exactly_once_witness :
    ((∀ u : ServoEasing, (clearMovesHandler u).mServoMoves = false) ∧
      movingServo.mServoMoves = true ∧
      (∀ u ∈ [100, 900], u - movingServo.mMillisAtStartMove <
        movingServo.mMillisForCompleteMove) ∧
      movingServo.mMillisForCompleteMove ≤ 1000 - movingServo.mMillisAtStartMove) ∧
    handlerInvocationFlags (some clearMovesHandler) zeroOracle
        ([100, 900] ++ 1000 :: [1200, 1300]) movingServo =
      List.replicate ([100, 900] : List Nat).length false ++
        true :: List.replicate ([1200, 1300] : List Nat).length false :=
  ⟨⟨fun _ => rfl, rfl, by decide, by decide⟩,
   callback_invoked_exactly_once clearMovesHandler zeroOracle movingServo [100, 900] 1000
     [1200, 1300] (fun _ => rfl) rfl (by decide) (by decide)⟩

/-! ## C9 -/

theorem servoAt_eq_some (arr : List (Option ServoEasing)) (i : Nat) (s : ServoEasing) :
    servoAt arr i = some s ↔ arr[i]? = some (some s) := by
  unfold servoAt
  cases h : arr[i]? with
  | none => simp
  | some o => simp

theorem servoAt_eq_none (arr : List (Option ServoEasing)) (i : Nat) :
    servoAt arr i = none ↔ (arr[i]? = some none ∨ arr[i]? = none) := by
  unfold servoAt
  cases h : arr[i]? with
  | none => simp
  | some o => simp

/-- C9: `stopAllServos()` clears `mServoMoves` on every attached servo in
range and changes nothing else — in particular `sInterruptsAreActive` is
untouched, because the `void disableServoEasingInterrupt();` line in its
body is a declaration, not a call.  By contrast the per-servo `stop()`
leaves the registry either with the interrupt flag cleared or with some
servo still moving. -/
theorem stopAllServos_only_clears_moving_flags (reg : ServoEasingRegistry) :
    (stopAllServos reg).sInterruptsAreActive = reg.sInterruptsAreActive ∧
    (stopAllServos reg).nextPositionArray = reg.nextPositionArray ∧
    (stopAllServos reg).sServoArrayMaxIndex = reg.sServoArrayMaxIndex ∧
    (∀ i s, i ≤ reg.sServoArrayMaxIndex → servoAt reg.servoEasingArray i = some s →
      servoAt (stopAllServos reg).servoEasingArray i =
        some { s with mServoMoves := false }) ∧
    (∀ i, servoAt reg.servoEasingArray i = none →
      servoAt (stopAllServos reg).servoEasingArray i = none) ∧
    (∀ i, reg.sServoArrayMaxIndex < i →
      (stopAllServos reg).servoEasingArray[i]? = reg.servoEasingArray[i]?) ∧
    (∀ j, (ServoEasing.stop reg j).sInterruptsAreActive = false ∨
      isOneServoMoving (ServoEasing.stop reg j) = true) := by
  refine ⟨rfl, rfl, rfl, ?_, ?_, ?_, ?_⟩
  · intro i s hi hs
    rw [servoAt_eq_some] at hs
    rw [servoAt_eq_some]
    unfold stopAllServos
    dsimp only
    rw [mapWithIndex_getElem?, Nat.zero_add, hs]
    simp [stopServoAt, hi]
  · intro i hnone
    rw [servoAt_eq_none] at hnone
    rw [servoAt_eq_none]
    unfold stopAllServos
    dsimp only
    rw [mapWithIndex_getElem?, Nat.zero_add]
    rcases hnone with h | h <;> rw [h]
    · left
      by_cases hi : i ≤ reg.sServoArrayMaxIndex <;> simp [stopServoAt, hi]
    · right; rfl
  · intro i hi
    unfold stopAllServos
    dsimp only
    rw [mapWithIndex_getElem?, Nat.zero_add]
    cases h : reg.servoEasingArray[i]? with
    | none => rfl
    | some o => simp [stopServoAt, Nat.not_le.mpr hi]
  · intro j
    unfold ServoEasing.stop
    dsimp only
    split
    · rename_i hm
      exact Or.inr hm
    · exact Or.inl rfl

/-- A second moving servo with a longer move, attached at slot 2. -/
def servoLong : ServoEasing :=
  { movingServo with mServoIndex := 2, mMillisForCompleteMove := 1500, mMillisAtStartMove := 5 }

/-- An idle attached servo at slot 1. -/
def idleServo : ServoEasing := { sampleServo with mServoIndex := 1 }

/-- A three-slot registry: one short moving servo, one idle servo, one
long moving servo; interrupts active. -/
def sampleRegistry : ServoEasingRegistry :=
  { servoEasingArray := [some movingServo, some idleServo, some servoLong]
    nextPositionArray := [0, 0, 0]
    sServoArrayMaxIndex := 2
    sInterruptsAreActive := true }

theorem stopAllServos_only_clears_moving_flags_witness :
    (stopAllServos sampleRegistry).sInterruptsAreActive =
      sampleRegistry.sInterruptsAreActive ∧
    (stopAllServos sampleRegistry).nextPositionArray = sampleRegistry.nextPositionArray ∧
    (stopAllServos sampleRegistry).sServoArrayMaxIndex =
      sampleRegistry.sServoArrayMaxIndex ∧
    (∀ i s, i ≤ sampleRegistry.sServoArrayMaxIndex →
      servoAt sampleRegistry.servoEasingArray i = some s →
      servoAt (stopAllServos sampleRegistry).servoEasingArray i =
        some { s with mServoMoves := false }) ∧
    (∀ i, servoAt sampleRegistry.servoEasingArray i = none →
      servoAt (stopAllServos sampleRegistry).servoEasingArray i = none) ∧
    (∀ i, sampleRegistry.sServoArrayMaxIndex < i →
      (stopAllServos sampleRegistry).servoEasingArray[i]? =
        sampleRegistry.servoEasingArray[i]?) ∧
    (∀ j, (ServoEasing.stop sampleRegistry j).sInterruptsAreActive = false ∨
      isOneServoMoving (ServoEasing.stop sampleRegistry j) = true) :=
  stopAllServos_only_clears_moving_flags sampleRegistry

/-! ## C1 -/

theorem syncScanStep_fst_le (acc : Nat × Nat) (os : Option ServoEasing) :
    acc.1 ≤ (syncScanStep acc os).1 := by
  cases os with
  | none => exact le_refl _
  | some s =>
    simp only [syncScanStep]
    split
    · dsimp only
      split <;> omega
    · exact le_refl _


/-- The first scan loop: its maximum is an upper bound of every moving
servo's duration among the scanned indices, dominates the initial
accumulator, and is either the initial accumulator or some scanned moving
servo's duration. -/
theorem syncScanList_max (arr : List (Option ServoEasing)) (l : List Nat) (acc : Nat × Nat) :
    acc.1 ≤ (syncScanList arr l acc).1 ∧
    (∀ i ∈ l, ∀ s, servoAt arr i = some s → s.mServoMoves = true →
      s.mMillisForCompleteMove ≤ (syncScanList arr l acc).1) ∧
    ((syncScanList arr l acc).1 = acc.1 ∨
      ∃ j ∈ l, ∃ t, servoAt arr j = some t ∧ t.mServoMoves = true ∧
        (syncScanList arr l acc).1 = t.mMillisForCompleteMove) := by
  induction l generalizing acc with
  | nil => exact ⟨le_refl _, by simp, Or.inl rfl⟩
  | cons x xs ih =>
    have hstep : syncScanList arr (x :: xs) acc =
        syncScanList arr xs (syncScanStep acc (servoAt arr x)) := rfl
    obtain ⟨ihle, ihub, ihprov⟩ := ih (syncScanStep acc (servoAt arr x))
    rw [hstep]
    refine ⟨le_trans (syncScanStep_fst_le acc (servoAt arr x)) ihle, ?_, ?_⟩
    · intro i hi s hs hm
      rcases List.mem_cons.mp hi with rfl | hi'
      · refine le_trans ?_ ihle
        rw [hs]
        simp only [syncScanStep, hm, eq_self_iff_true, if_true]
        by_cases hlt : acc.1 < s.mMillisForCompleteMove
        · rw [if_pos hlt]
        · rw [if_neg hlt]
          omega
      · exact ihub i hi' s hs hm
    · rcases ihprov with heq | ⟨j, hj, t, ht, htm, hteq⟩
      · cases hx : servoAt arr x with
        | none =>
          left
          rw [hx] at heq
          exact heq
        | some u =>
          rw [hx] at heq
          by_cases hum : u.mServoMoves = true
          · have hse : syncScanStep acc (some u) =
                (if acc.1 < u.mMillisForCompleteMove then u.mMillisForCompleteMove
                  else acc.1, u.mMillisAtStartMove) := by
              simp [syncScanStep, hum]
            rw [hse] at heq
            by_cases hlt : acc.1 < u.mMillisForCompleteMove
            · right
              refine ⟨x, List.mem_cons_self x xs, u, hx, hum, ?_⟩
              rw [hse, heq, if_pos hlt]
            · left
              rw [hse, heq, if_neg hlt]
          · have hse : syncScanStep acc (some u) = acc := by
              simp [syncScanStep, hum]
            left
            rw [hse] at heq
            rw [hse]
            exact heq
      · exact Or.inr ⟨j, List.mem_cons_of_mem x hj, t, ht, htm, hteq⟩

/-- The first scan loop: its reference start time is the start time of
some scanned moving servo, unless no scanned servo is moving, in which
case it is the initial accumulator. -/
theorem syncScanList_start (arr : List (Option ServoEasing)) (l : List Nat)
    (acc : Nat × Nat) :
    (∃ j ∈ l, ∃ t, servoAt arr j = some t ∧ t.mServoMoves = true ∧
      (syncScanList arr l acc).2 = t.mMillisAtStartMove) ∨
    ((∀ j ∈ l, ∀ t, servoAt arr j = some t → t.mServoMoves = false) ∧
      (syncScanList arr l acc).2 = acc.2) := by
  induction l generalizing acc with
  | nil => exact Or.inr ⟨by simp, rfl⟩
  | cons x xs ih =>
    have hstep : syncScanList arr (x :: xs) acc =
        syncScanList arr xs (syncScanStep acc (servoAt arr x)) := rfl
    rw [hstep]
    rcases ih (syncScanStep acc (servoAt arr x)) with ⟨j, hj, t, ht, htm, hteq⟩ | ⟨hnone, heq⟩
    · exact Or.inl ⟨j, List.mem_cons_of_mem x hj, t, ht, htm, hteq⟩
    · cases hx : servoAt arr x with
      | none =>
        right
        rw [hx] at heq
        refine ⟨?_, ?_⟩
        · intro j hj t ht
          rcases List.mem_cons.mp hj with rfl | hj'
          · rw [hx] at ht; cases ht
          · exact hnone j hj' t ht
        · exact heq
      | some u =>
        rw [hx] at heq
        by_cases hum : u.mServoMoves = true
        · left
          refine ⟨x, List.mem_cons_self x xs, u, hx, hum, ?_⟩
          rw [heq]
          simp [syncScanStep, hum]
        · right
          refine ⟨?_, ?_⟩
          · intro j hj t ht
            rcases List.mem_cons.mp hj with rfl | hj'
            · rw [hx] at ht
              cases ht
              simp only [Bool.not_eq_true] at hum
              exact hum
            · exact hnone j hj' t ht
          · rw [heq]
            simp only [syncScanStep]
            rw [if_neg hum]

/-- The synchronization invariant relating a registry to its state after
`synchronizeAllServosAndStartInterrupt`: there are a duration `D` and a
start time `T` such that `D` is the duration of some pre-call moving
servo and dominates every pre-call moving servo's duration (i.e. it is
their maximum), `T` is the start time of some pre-call moving servo, every
pre-call moving servo now carries exactly start time `T` and duration `D`
and is otherwise unchanged, and every attached servo that was not moving
is completely unchanged. -/
def SynchronizedAfter (reg reg' : ServoEasingRegistry) : Prop :=
  ∃ D T : Nat,
    (∃ k, k ≤ reg.sServoArrayMaxIndex ∧ ∃ sk, servoAt reg.servoEasingArray k = some sk ∧
      sk.mServoMoves = true ∧ D = sk.mMillisForCompleteMove) ∧
    (∃ j, j ≤ reg.sServoArrayMaxIndex ∧ ∃ sj, servoAt reg.servoEasingArray j = some sj ∧
      sj.mServoMoves = true ∧ T = sj.mMillisAtStartMove) ∧
    (∀ i, i ≤ reg.sServoArrayMaxIndex → ∀ s, servoAt reg.servoEasingArray i = some s →
      s.mServoMoves = true → s.mMillisForCompleteMove ≤ D) ∧
    (∀ i, i ≤ reg.sServoArrayMaxIndex → ∀ s, servoAt reg.servoEasingArray i = some s →
      s.mServoMoves = true → servoAt reg'.servoEasingArray i =
        some { s with mMillisAtStartMove := T, mMillisForCompleteMove := D }) ∧
    (∀ i s, servoAt reg.servoEasingArray i = some s → s.mServoMoves = false →
      servoAt reg'.servoEasingArray i = some s)

/-- C1: provided at least one servo in range is moving, after
`synchronizeAllServosAndStartInterrupt` every servo that was moving
carries the maximum pre-call duration over all moving servos and one
common reference start time taken from a moving servo, and every attached
servo that was not moving is unchanged in all of its fields. -/
theorem synchronizeAll_sets_max_duration_and_common_start
    (aStartUpdateByInterrupt : Bool) (reg : ServoEasingRegistry) (i0 : Nat)
    (s0 : ServoEasing)
    (hi0 : i0 ≤ reg.sServoArrayMaxIndex)
    (hs0 : servoAt reg.servoEasingArray i0 = some s0)
    (hm0 : s0.mServoMoves = true) :
    SynchronizedAfter reg (synchronizeAllServosAndStartInterrupt aStartUpdateByInterrupt reg) := by
  obtain ⟨hle, hub, hprov⟩ := syncScanList_max reg.servoEasingArray
    (List.range (reg.sServoArrayMaxIndex + 1)) (0, 0)
  have hi0mem : i0 ∈ List.range (reg.sServoArrayMaxIndex + 1) :=
    List.mem_range.mpr (Nat.lt_succ_iff.mpr hi0)
  refine ⟨(syncScanList reg.servoEasingArray
      (List.range (reg.sServoArrayMaxIndex + 1)) (0, 0)).1,
    (syncScanList reg.servoEasingArray
      (List.range (reg.sServoArrayMaxIndex + 1)) (0, 0)).2, ?_, ?_, ?_, ?_, ?_⟩
  · rcases hprov with h0 | ⟨j, hj, t, ht, htm, hteq⟩
    · refine ⟨i0, hi0, s0, hs0, hm0, ?_⟩
      have hub0 := hub i0 hi0mem s0 hs0 hm0
      omega
    · exact ⟨j, Nat.lt_succ_iff.mp (List.mem_range.mp hj), t, ht, htm, hteq⟩
  · rcases syncScanList_start reg.servoEasingArray
        (List.range (reg.sServoArrayMaxIndex + 1)) (0, 0) with
      ⟨j, hj, t, ht, htm, hteq⟩ | ⟨hnone, _⟩
    · exact ⟨j, Nat.lt_succ_iff.mp (List.mem_range.mp hj), t, ht, htm, hteq⟩
    · exact absurd (hnone i0 hi0mem s0 hs0) (by simp [hm0])
  · intro i hi s hs hm
    exact hub i (List.mem_range.mpr (Nat.lt_succ_iff.mpr hi)) s hs hm
  · intro i hi s hs hm
    rw [servoAt_eq_some] at hs
    rw [servoAt_eq_some]
    unfold synchronizeAllServosAndStartInterrupt
    dsimp only
    rw [mapWithIndex_getElem?, Nat.zero_add, hs]
    simp [syncServoAt, hi, hm]
  · intro i s hs hmf
    rw [servoAt_eq_some] at hs
    rw [servoAt_eq_some]
    unfold synchronizeAllServosAndStartInterrupt
    dsimp only
    rw [mapWithIndex_getElem?, Nat.zero_add, hs]
    by_cases hi : i ≤ reg.sServoArrayMaxIndex <;> simp [syncServoAt, hi, hmf]

theorem synchronizeAll_sets_max_duration_and_common_start_witness :
    ((0 : Nat) ≤ sampleRegistry.sServoArrayMaxIndex ∧
      servoAt sampleRegistry.servoEasingArray 0 = some movingServo ∧
      movingServo.mServoMoves = true) ∧
    SynchronizedAfter sampleRegistry
      (synchronizeAllServosAndStartInterrupt false sampleRegistry) :=
  ⟨⟨by decide, by decide, by decide⟩,
   synchronizeAll_sets_max_duration_and_common_start false sampleRegistry 0 movingServo
     (by decide) (by decide) (by decide)⟩

/-! ## C10 -/

/-- A registry is consistent when every attached servo's `mServoIndex`
equals its slot (which `attach` establishes and no engine operation
breaks). -/
def Consistent (reg : ServoEasingRegistry) : Prop :=
  ∀ j s, servoAt reg.servoEasingArray j = some s → s.mServoIndex = j

/-- The servo-state effect of `setEaseTo(target, mSpeed)` on one servo;
the globals do not influence the resulting servo state, so they are fixed
to a dummy value here. -/
def setEaseToServo (s : ServoEasing) (target : Int) (now : Nat) : ServoEasing :=
  (ServoEasing.setEaseTo s { nextPositionArray := [], sInterruptsAreActive := false }
      target s.mSpeed now).1

theorem setEaseTo_fst_eq_setEaseToServo (s : ServoEasing) (g : ServoEasingGlobals)
    (target : Int) (now : Nat) :
    (ServoEasing.setEaseTo s g target s.mSpeed now).1 = setEaseToServo s target now := by
  by_cases h : s.mServoIndex = INVALID_SERVO <;>
    simp [setEaseToServo, ServoEasing.setEaseTo, ServoEasing.startEaseTo,
      ServoEasing.startEaseToD, h]

theorem setEaseToServo_mServoIndex (s : ServoEasing) (target : Int) (now : Nat) :
    (setEaseToServo s target now).mServoIndex = s.mServoIndex := by
  by_cases h : s.mServoIndex = INVALID_SERVO <;>
    simp [setEaseToServo, ServoEasing.setEaseTo, ServoEasing.startEaseTo,
      ServoEasing.startEaseToD, h]

/-- Function `setEaseTo` writes the staging array only at the servo's own index. -/
theorem setEaseTo_nextPos_frame (s : ServoEasing) (g : ServoEasingGlobals) (target : Int)
    (sp now k : Nat) (hk : k ≠ s.mServoIndex) :
    (ServoEasing.setEaseTo s g target sp now).2.1.nextPositionArray[k]? =
      g.nextPositionArray[k]? := by
  by_cases h : s.mServoIndex = INVALID_SERVO
  · simp [ServoEasing.setEaseTo, ServoEasing.startEaseTo, ServoEasing.startEaseToD, h]
  · by_cases hd : s.mEasingType = EASE_DUMMY_MOVE
    · simp [ServoEasing.setEaseTo, ServoEasing.startEaseTo, ServoEasing.startEaseToD, h, hd]
    · simp only [ServoEasing.setEaseTo, ServoEasing.startEaseTo, ServoEasing.startEaseToD,
        if_neg h, ne_eq, hd, not_false_eq_true, if_true, Bool.false_and, if_false]
      simp [List.getElem?_set_ne (Ne.symm hk)]

/-- One step of the `setEaseToForAllServos` loop: slots and staging
entries other than the processed index are untouched, an occupied
processed slot becomes the eased servo targeting its staged position, an
empty slot leaves the registry unchanged, and consistency and the maximum
index survive. -/
theorem setEaseToForAllServosStep_spec (now : Nat) (acc : ServoEasingRegistry × Bool)
    (j : Nat) (hcons : Consistent acc.1) :
    (∀ k, k ≠ j →
      servoAt (setEaseToForAllServosStep now acc j).1.servoEasingArray k =
        servoAt acc.1.servoEasingArray k ∧
      (setEaseToForAllServosStep now acc j).1.nextPositionArray[k]? =
        acc.1.nextPositionArray[k]?) ∧
    (∀ s, servoAt acc.1.servoEasingArray j = some s →
      servoAt (setEaseToForAllServosStep now acc j).1.servoEasingArray j =
        some (setEaseToServo s (acc.1.nextPositionArray.getD j 0) now)) ∧
    Consistent (setEaseToForAllServosStep now acc j).1 ∧
    (setEaseToForAllServosStep now acc j).1.sServoArrayMaxIndex =
      acc.1.sServoArrayMaxIndex := by
  cases h : servoAt acc.1.servoEasingArray j with
  | none =>
    have hstep : setEaseToForAllServosStep now acc j = acc := by
      unfold setEaseToForAllServosStep
      rw [h]
    rw [hstep]
    exact ⟨fun k _ => ⟨rfl, rfl⟩, fun s hs => Option.noConfusion hs, hcons, rfl⟩
  | some s =>
    have hidx : s.mServoIndex = j := hcons j s h
    have hlen : j < acc.1.servoEasingArray.length := by
      rw [servoAt_eq_some] at h
      rcases List.getElem?_eq_some.mp h with ⟨h1, _⟩
      exact h1
    have hstep : setEaseToForAllServosStep now acc j =
        ({ acc.1 with
            servoEasingArray := acc.1.servoEasingArray.set j
              (some (ServoEasing.setEaseTo s acc.1.globals
                (acc.1.nextPositionArray.getD j 0) s.mSpeed now).1)
            nextPositionArray := (ServoEasing.setEaseTo s acc.1.globals
              (acc.1.nextPositionArray.getD j 0) s.mSpeed now).2.1.nextPositionArray
            sInterruptsAreActive := (ServoEasing.setEaseTo s acc.1.globals
              (acc.1.nextPositionArray.getD j 0) s.mSpeed now).2.1.sInterruptsAreActive },
          (ServoEasing.setEaseTo s acc.1.globals
            (acc.1.nextPositionArray.getD j 0) s.mSpeed now).2.2 || acc.2) := by
      unfold setEaseToForAllServosStep
      rw [h]
    refine ⟨?_, ?_, ?_, ?_⟩
    · intro k hk
      rw [hstep]
      constructor
      · unfold servoAt
        dsimp only
        rw [List.getElem?_set_ne (Ne.symm hk)]
      · dsimp only
        rw [setEaseTo_nextPos_frame s acc.1.globals _ s.mSpeed now k (hidx ▸ hk)]
        rfl
    · intro t ht
      cases ht
      rw [hstep]
      unfold servoAt
      dsimp only
      rw [List.getElem?_set_self hlen]
      rw [setEaseTo_fst_eq_setEaseToServo]
      rfl
    · intro m t hmt
      rw [hstep] at hmt
      by_cases hmj : m = j
      · subst hmj
        unfold servoAt at hmt
        dsimp only at hmt
        rw [List.getElem?_set_self hlen] at hmt
        simp only [Option.getD_some, Option.some.injEq] at hmt
        rw [← hmt, setEaseTo_fst_eq_setEaseToServo, setEaseToServo_mServoIndex]
        exact hidx
      · unfold servoAt at hmt
        dsimp only at hmt
        rw [List.getElem?_set_ne (fun he => hmj he.symm)] at hmt
        exact hcons m t hmt
    · rw [hstep]

/-- Processing the first `n` slots of the `setEaseToForAllServos()` loop:
slots and staging entries at or past `n` are untouched, every occupied
processed slot holds the eased servo targeting its originally staged
position, and consistency survives. -/
theorem setEaseToFold_spec (now : Nat) (reg : ServoEasingRegistry)
    (hcons : Consistent reg) (n : Nat) :
    (∀ k, n ≤ k →
      servoAt ((List.range n).foldl (setEaseToForAllServosStep now)
          (reg, false)).1.servoEasingArray k = servoAt reg.servoEasingArray k ∧
      ((List.range n).foldl (setEaseToForAllServosStep now)
          (reg, false)).1.nextPositionArray[k]? = reg.nextPositionArray[k]?) ∧
    (∀ i, i < n → ∀ s, servoAt reg.servoEasingArray i = some s →
      servoAt ((List.range n).foldl (setEaseToForAllServosStep now)
          (reg, false)).1.servoEasingArray i =
        some (setEaseToServo s (reg.nextPositionArray.getD i 0) now)) ∧
    Consistent ((List.range n).foldl (setEaseToForAllServosStep now) (reg, false)).1 := by
  induction n with
  | zero =>
    exact ⟨fun k _ => ⟨rfl, rfl⟩, fun i hi => absurd hi (Nat.not_lt_zero i), hcons⟩
  | succ n ih =>
    obtain ⟨ihframe, ihdone, ihcons⟩ := ih
    have hfold : (List.range (n + 1)).foldl (setEaseToForAllServosStep now) (reg, false) =
        setEaseToForAllServosStep now
          ((List.range n).foldl (setEaseToForAllServosStep now) (reg, false)) n := by
      rw [List.range_succ, List.foldl_append]
      rfl
    set acc := (List.range n).foldl (setEaseToForAllServosStep now) (reg, false) with hacc
    obtain ⟨stframe, stdone, stcons, _⟩ := setEaseToForAllServosStep_spec now acc n ihcons
    refine ⟨?_, ?_, ?_⟩
    · intro k hk
      rw [hfold]
      obtain ⟨ha, hb⟩ := stframe k (by omega)
      obtain ⟨ha', hb'⟩ := ihframe k (by omega)
      exact ⟨ha.trans ha', hb.trans hb'⟩
    · intro i hi s hs
      rw [hfold]
      by_cases hin : i = n
      · subst hin
        have h1 : servoAt acc.1.servoEasingArray i = some s := by
          rw [(ihframe i (le_refl i)).1]
          exact hs
        have hnext : acc.1.nextPositionArray.getD i 0 =
            reg.nextPositionArray.getD i 0 := by
          rw [List.getD_eq_getElem?_getD, List.getD_eq_getElem?_getD,
            (ihframe i (le_refl i)).2]
        have h2 := stdone s h1
        rw [hnext] at h2
        exact h2
      · rw [(stframe i hin).1]
        exact ihdone i (by omega) s hs
    · rw [hfold]
      exact stcons

/-- The new target stored by `setEaseTo` for an attached servo with a
non-dummy easing type and a non-bounce call style is the unit conversion
of the requested position. -/
theorem setEaseToServo_mEnd (s : ServoEasing) (target : Int) (now : Nat)
    (hatt : s.mServoIndex ≠ INVALID_SERVO) (hdummy : s.mEasingType ≠ EASE_DUMMY_MOVE)
    (hnb : s.mEasingType &&& CALL_STYLE_MASK ≠ CALL_STYLE_BOUNCING_OUT_IN) :
    (setEaseToServo s target now).mEndMicrosecondsOrUnits =
      ServoEasing.DegreeToMicrosecondsOrUnits s target := by
  simp [setEaseToServo, ServoEasing.setEaseTo, ServoEasing.startEaseTo,
    ServoEasing.startEaseToD, hatt, hdummy, hnb]

/-- C10: for an attached servo in a consistent registry, `write(v)` stores
the raw, unconverted `v` in `ServoEasingNextPositionArray` at the servo's
slot while the servo itself receives the converted value as its current
position; a subsequent `setEaseToForAllServos()` then gives that servo a
move whose stored target is exactly the conversion of `v`, i.e. the batch
targets the last explicitly written position. -/
theorem write_stages_raw_position_for_batch_moves
    (reg : ServoEasingRegistry) (i : Nat) (v : Int) (now : Nat) (s : ServoEasing)
    (hcons : Consistent reg)
    (hs : servoAt reg.servoEasingArray i = some s)
    (hatt : s.mServoIndex ≠ INVALID_SERVO)
    (hlen : i < reg.nextPositionArray.length)
    (hi : i ≤ reg.sServoArrayMaxIndex)
    (hdummy : s.mEasingType ≠ EASE_DUMMY_MOVE)
    (hnb : s.mEasingType &&& CALL_STYLE_MASK ≠ CALL_STYLE_BOUNCING_OUT_IN) :
    (registryWrite reg i v).nextPositionArray[i]? = some v ∧
    servoAt (registryWrite reg i v).servoEasingArray i =
      some { s with
        mCurrentMicrosecondsOrUnits := ServoEasing.DegreeToMicrosecondsOrUnits s v } ∧
    (∃ s2, servoAt (setEaseToForAllServos (registryWrite reg i v)
          now).1.servoEasingArray i = some s2 ∧
      s2.mEndMicrosecondsOrUnits = ServoEasing.DegreeToMicrosecondsOrUnits s v) := by
  have hidx : s.mServoIndex = i := hcons i s hs
  have harr : i < reg.servoEasingArray.length := by
    rw [servoAt_eq_some] at hs
    rcases List.getElem?_eq_some.mp hs with ⟨h1, _⟩
    exact h1
  have hw : ServoEasing.write s reg.globals v =
      ({ s with
          mCurrentMicrosecondsOrUnits := ServoEasing.DegreeToMicrosecondsOrUnits s v },
       { reg.globals with
          nextPositionArray := reg.globals.nextPositionArray.set s.mServoIndex v }) := by
    unfold ServoEasing.write ServoEasing.writeMicrosecondsOrUnits
    rw [if_neg hatt, if_neg hatt]
  have hreg' : registryWrite reg i v =
      { reg with
        servoEasingArray := reg.servoEasingArray.set i (some { s with
          mCurrentMicrosecondsOrUnits := ServoEasing.DegreeToMicrosecondsOrUnits s v })
        nextPositionArray := reg.nextPositionArray.set s.mServoIndex v } := by
    unfold registryWrite
    rw [hs]
    dsimp only
    rw [hw]
    rfl
  have hnextv : (registryWrite reg i v).nextPositionArray[i]? = some v := by
    rw [hreg']
    dsimp only
    rw [hidx]
    exact List.getElem?_set_self hlen
  have hservo : servoAt (registryWrite reg i v).servoEasingArray i =
      some { s with
        mCurrentMicrosecondsOrUnits := ServoEasing.DegreeToMicrosecondsOrUnits s v } := by
    rw [hreg']
    unfold servoAt
    dsimp only
    rw [List.getElem?_set_self harr]
    rfl
  refine ⟨hnextv, hservo, ?_⟩
  have hcons' : Consistent (registryWrite reg i v) := by
    intro m t hmt
    by_cases hmi : m = i
    · subst hmi
      rw [hservo] at hmt
      cases hmt
      exact hidx
    · rw [hreg'] at hmt
      unfold servoAt at hmt
      dsimp only at hmt
      rw [List.getElem?_set_ne (fun he => hmi he.symm)] at hmt
      exact hcons m t hmt
  obtain ⟨_, hdone, _⟩ := setEaseToFold_spec now (registryWrite reg i v) hcons'
    ((registryWrite reg i v).sServoArrayMaxIndex + 1)
  have hmax' : (registryWrite reg i v).sServoArrayMaxIndex = reg.sServoArrayMaxIndex := by
    rw [hreg']
  have hgetd : (registryWrite reg i v).nextPositionArray.getD i 0 = v := by
    rw [List.getD_eq_getElem?_getD, hnextv]
    rfl
  have hres := hdone i (by omega) _ hservo
  rw [hgetd] at hres
  refine ⟨setEaseToServo { s with
      mCurrentMicrosecondsOrUnits := ServoEasing.DegreeToMicrosecondsOrUnits s v } v now,
    hres, ?_⟩
  rw [setEaseToServo_mEnd _ v now (by simpa using hatt) (by simpa using hdummy)
    (by simpa using hnb)]
  rfl

theorem sampleRegistry_consistent : Consistent sampleRegistry := by
  intro j s h
  rcases j with _ | _ | _ | j
  · rw [show servoAt sampleRegistry.servoEasingArray 0 = some movingServo from rfl] at h
    cases h
    rfl
  · rw [show servoAt sampleRegistry.servoEasingArray 1 = some idleServo from rfl] at h
    cases h
    rfl
  · rw [show servoAt sampleRegistry.servoEasingArray 2 = some servoLong from rfl] at h
    cases h
    rfl
  · simp [sampleRegistry, servoAt] at h

theorem write_stages_raw_position_for_batch_moves_witness :
    (Consistent sampleRegistry ∧
      servoAt sampleRegistry.servoEasingArray 0 = some movingServo ∧
      movingServo.mServoIndex ≠ INVALID_SERVO ∧
      0 < sampleRegistry.nextPositionArray.length ∧
      0 ≤ sampleRegistry.sServoArrayMaxIndex ∧
      movingServo.mEasingType ≠ EASE_DUMMY_MOVE ∧
      movingServo.mEasingType &&& CALL_STYLE_MASK ≠ CALL_STYLE_BOUNCING_OUT_IN) ∧
    ((registryWrite sampleRegistry 0 90).nextPositionArray[0]? = some 90 ∧
      servoAt (registryWrite sampleRegistry 0 90).servoEasingArray 0 =
        some { movingServo with
          mCurrentMicrosecondsOrUnits :=
            ServoEasing.DegreeToMicrosecondsOrUnits movingServo 90 } ∧
      (∃ s2, servoAt (setEaseToForAllServos (registryWrite sampleRegistry 0 90)
            7).1.servoEasingArray 0 = some s2 ∧
        s2.mEndMicrosecondsOrUnits =
          ServoEasing.DegreeToMicrosecondsOrUnits movingServo 90)) :=
  ⟨⟨sampleRegistry_consistent, rfl, by decide, by decide, by decide, by decide, by decide⟩,
   write_stages_raw_position_for_batch_moves sampleRegistry 0 90 7 movingServo
     sampleRegistry_consistent rfl (by decide) (by decide) (by decide) (by decide)
     (by decide)⟩
